import Mathlib

/-!
# Verification of the sypl structured-logging library's dispatch pipeline

Shallow embedding of the message-processing pipeline of the sypl logger
(package `sypl`, main file `sypl.go`), together with the parts of its
satellite packages (`fields`, `message`, `content`, `level`, `flag`,
`status`) that the verified properties depend on.

Conventions of the embedding:
* Go strings are Lean `String`s; Go byte slices are `List Nat` (each < 256).
* Go maps are association lists (`Fields`); Go map reference semantics,
  where it matters (child-logger derivation), is made explicit with a
  store of map values addressed by `Nat` references.
* Concurrency (errgroup fan-out) is modelled by evaluating the per-message
  and per-output work as pure functions and collecting all write calls;
  `os.Exit(1)` is modelled as a boolean "should exit" component of the
  dispatch result, produced alongside the complete list of writes (the Go
  code calls `os.Exit` only after `g.Wait()` returns).
* Goroutine-order nondeterminism is irrelevant to the verified claims: they
  are about which writes happen, not about their interleaving.
-/

namespace Sypl

/-! ## Enumerations (packages `level`, `flag`, `status`)

`level.Level` is declared in level/level.go as
`None, Fatal, Error, Info, Warn, Debug, Trace` (iota order);
`flag.Flag` as `None, Force, Mute, Skip, SkipAndForce, SkipAndMute`;
`status.Status` as `Disabled, Enabled`. -/

inductive Level where
  | none
  | fatal
  | error
  | info
  | warn
  | debug
  | trace
deriving DecidableEq

inductive Flag where
  | none
  | force
  | mute
  | skip
  | skipAndForce
  | skipAndMute
deriving DecidableEq

inductive Status where
  | disabled
  | enabled
deriving DecidableEq

/-! ## Go `strings` operations used by the dispatcher

`strings.Contains(s, substr)` reports whether `substr` is anywhere inside
`s` (substring search, `Contains(s, "") == true`). `strings.Join` is
`String.intercalate`. `strings.Trim(s, cutset)` removes from both ends
every leading/trailing character contained in `cutset`. -/

/-- Does `s` start with `pre`? (Go `strings.HasPrefix` on char lists.) -/
def listStartsWith : List Char → List Char → Bool
  | _, [] => true
  | [], _ :: _ => false
  | a :: s, b :: pre => a = b && listStartsWith s pre

/-- Is `sub` a contiguous substring of `s`? (Go `strings.Contains`.) -/
def listContainsSub : List Char → List Char → Bool
  | [], sub => sub.isEmpty
  | a :: rest, sub => listStartsWith (a :: rest) sub || listContainsSub rest sub

/-- Go `strings.Contains` on `String`. -/
def goContains (s sub : String) : Bool :=
  listContainsSub s.data sub.data

/-- Go `strings.Trim(s, cutset)`: drop the leading and trailing characters
that belong to `cutset`. -/
def goTrim (s : String) (cutset : List Char) : String :=
  String.mk ((((s.data.dropWhile (· ∈ cutset)).reverse.dropWhile (· ∈ cutset))).reverse)

/-- Go `strings.Split(s, ",")` on char lists: the comma-separated pieces of
`s` (used only to state the spec's "comma-separated entries" reading of the
component filter and of output-name lists). -/
def splitComma : List Char → List (List Char)
  | [] => [[]]
  | c :: rest =>
    match splitComma rest with
    | [] => if c = ',' then [[], []] else [[c]]
    | h :: t => if c = ',' then [] :: h :: t else (c :: h) :: t

/-- The comma-separated entries of a filter string, as the spec's words
describe them ("a process-wide filter naming specific logger names",
"comma-separated"). This is the spec-side reading, to be compared with the
code's `strings.Contains` check. -/
def specFilterEntries (s : String) : List String :=
  (splitComma s.data).map String.mk

/-! ## Structured fields (package `fields`)

`fields.Fields` is `map[string]interface{}`. The `fields` package is not
under src/; `fields.Copy` is modelled from the spec: "Merge global fields
under message fields (message fields win on key collision) into a new map"
— i.e. `Copy(src, dst)` writes every binding of `src` into `dst` (map-set
semantics: an existing binding for the same key is overwritten) and
returns `dst`. Values are modelled as `String` (their identity is all the
claims use). -/

def Fields := List (String × String)
deriving DecidableEq, Inhabited

/-- Go map lookup `f[k]` (first binding wins; real Go maps have unique
keys, which theorems assume through `Nodup` hypotheses on keys). -/
def fieldsGet : Fields → String → Option String
  | [], _ => none
  | (k0, v0) :: rest, k => if k0 = k then some v0 else fieldsGet rest k

/-- Go map assignment `f[k] = v`: replace the binding of `k` in place, or
append a new binding. -/
def fieldsInsert : Fields → String → String → Fields
  | [], k, v => [(k, v)]
  | (k0, v0) :: rest, k, v =>
    if k0 = k then (k, v) :: rest else (k0, v0) :: fieldsInsert rest k v

/-- Modelled from the spec: `fields.Copy(src, dst)` (package `fields`, not
under src/) — copies every binding of `src` into `dst` and returns `dst`;
a binding already in `dst` for the same key is overwritten. -/
def fieldsCopy (src dst : Fields) : Fields :=
  src.foldl (fun acc kv => fieldsInsert acc kv.1 kv.2) dst

/-- The keys of a fields map. -/
def fieldsKeys (f : Fields) : List String := f.map Prod.fst

/-! ## Tags (interface `ITag`, implemented in message/message.go)

The message implementation is not under src/ (only the `IMessage`/`ITag`
interfaces are). `AddTags` is modelled from the spec: tags form an
"ordered set of string (insertion order irrelevant for membership,
duplicates must not accumulate on repeated global-merge)", so adding tags
appends each tag that is not already present. -/

/-- Modelled from the spec: `message.AddTags(tags...)` — appends to the
message's tag set each given tag that is not already a member, never
accumulating duplicates. -/
def addTags (existing new : List String) : List String :=
  new.foldl (fun acc t => if t ∈ acc then acc else acc ++ [t]) existing

/-! ## Messages (package `message`)

The `message` implementation (message/message.go, content/content.go) is
not under src/ — only the `IMessage` interface and `generateID` are. The
record below carries exactly the message state the verified claims
observe; the constructor is modelled from the spec ("Lifecycle: created
per print call", fields/tags/routing empty, flag default, processed text
starting equal to original). The random `id`, `timestamp` and debug-regex
state play no role in any claim and are omitted. -/

structure Message where
  /-- `content.original` — immutable after creation. -/
  contentOriginal : String
  /-- `content.processed` — starts equal to original. -/
  contentProcessed : String
  level : Level
  flag : Flag
  fields : Fields
  tags : List String
  /-- Explicit routing allow-list (`outputsNames`). -/
  outputsNames : List String
  /-- Populated by the dispatcher during fan-out. -/
  componentName : String
  /-- Populated by the dispatcher during fan-out. -/
  outputName : String
deriving DecidableEq

/-- Modelled from the spec: `message.New(level, content)` — a fresh
message at the given level whose processed text starts equal to the
original, with no fields, tags, routing names or flag set. -/
def Message.new (l : Level) (ct : String) : Message :=
  { contentOriginal := ct
    contentProcessed := ct
    level := l
    flag := Flag.none
    fields := []
    tags := []
    outputsNames := []
    componentName := ""
    outputName := "" }

/-! ## Outputs (package `output`)

Only the parts of an output the dispatcher reads before invoking
`output.Write` are needed: its name and enabled/disabled status (the
max-level filter and processor chain live inside `Write`, which no claim
inspects). -/

structure Output where
  name : String
  status : Status
deriving DecidableEq

/-- A recorded invocation of `output.Write(msg)`: which output was
invoked, and with which (isolated, stamped) message copy. -/
structure WriteCall where
  outputName : String
  msg : Message
deriving DecidableEq

/-! ## The logger and its dispatch pipeline (sypl.go) -/

/-- The `Sypl` struct, value view, as the dispatch path reads it.
Go distinguishes `nil` maps/slices from empty ones and `process` branches
on `!= nil`; hence `fields` and `tags` are `Option`s, with `none`
standing for Go `nil` (the factory `New` initializes both non-nil). -/
structure Logger where
  name : String
  defaultIoWriterLevel : Level
  fields : Option Fields
  outputs : List Output
  status : Status
  tags : Option (List String)

/-- `New(name, outputs...)` (sypl.go): the Sypl factory. -/
def Logger.new (name : String) (outputs : List Output) : Logger :=
  { name := name
    defaultIoWriterLevel := Level.none
    fields := some []
    outputs := outputs
    status := Status.enabled
    tags := some [] }

/-- `GetOutputsNames` (sypl.go): the names of the registered outputs. -/
def Logger.getOutputsNames (s : Logger) : List String :=
  s.outputs.map Output.name

/-- `processOutputs` (sypl.go): for every registered output, make an
isolated copy of the message (`message.Copy`), and — if the output is
enabled and `strings.Contains(outputsNames, o.GetName())` holds, where
`outputsNames` is the comma-joined resolved target-name string — stamp
the copy with the logger name as component and the output name as
destination and invoke the output's `Write` on it. (The debug-env-var
regex stamping is omitted: no claim observes it.) -/
def Logger.processOutputs (s : Logger) (m : Message) (outputsNames : String) :
    List WriteCall :=
  s.outputs.filterMap fun o =>
    if o.status = Status.enabled ∧ goContains outputsNames o.name then
      some { outputName := o.name
             msg := { m with componentName := s.name, outputName := o.name } }
    else none

/-- The per-message body of `process` (sypl.go, the closure passed to
`g.Go`): `none` means the message was dropped (no output touched);
`some (m', calls)` gives the message as mutated by the global merges and
the `Write` invocations it produced. `filterEnvVar` is the value of the
`SYPL_FILTER` environment variable read by the dispatch. -/
def Logger.dispatchMessage (s : Logger) (filterEnvVar : String) (m : Message) :
    Option (Message × List WriteCall) :=
  -- Do nothing if message has no content, and is flagged `SkipAndMute`.
  if m.contentOriginal = "" ∧ m.flag = Flag.skipAndMute then none
  -- Component filtering: drop unless the filter is inactive or
  -- `strings.Contains(filter, sypl.GetName())`.
  else if filterEnvVar ≠ "" ∧ ¬ goContains filterEnvVar s.name then none
  else
    -- Resolve target output names: message-specified names win.
    let outputsNames := if m.outputsNames.length > 0 then m.outputsNames
                        else s.getOutputsNames
    let m1 := { m with outputsNames := outputsNames }
    -- Global fields merge (message fields win), guarded by `!= nil`.
    let m2 := match s.fields with
      | some g => { m1 with fields := fieldsCopy m1.fields (fieldsCopy g []) }
      | none => m1
    -- Global tags merge, guarded by `!= nil`.
    let m3 := match s.tags with
      | some g => { m2 with tags := addTags m2.tags (g ++ m2.tags) }
      | none => m2
    some (m3, s.processOutputs m3 (String.intercalate "," outputsNames))

/-- `process` (sypl.go): dispatch a batch of messages. Every message's
per-output work is carried out (first component: all `Write` calls of the
whole batch); afterwards — only after `g.Wait()` has joined all of it —
the process exits with status 1 iff some non-dropped message was at the
`Fatal` level (second component). -/
def Logger.process (s : Logger) (filterEnvVar : String) (msgs : List Message) :
    List WriteCall × Bool :=
  (msgs.foldr
      (fun m acc => (((s.dispatchMessage filterEnvVar m).map Prod.snd).getD []) ++ acc)
      [],
   msgs.any fun m =>
     (s.dispatchMessage filterEnvVar m).isSome && m.level = Level.fatal)

/-- `Write` (sypl.go, the io.Writer implementation): builds a message at
`defaultIoWriterLevel` from the byte slice, processes it, and returns
`0, nil`. The first component is the Go return value `(int, error)`;
the second is the dispatch outcome. -/
def Logger.write (s : Logger) (filterEnvVar : String) (p : String) :
    (Nat × Option String) × (List WriteCall × Bool) :=
  ((0, none), s.process filterEnvVar [Message.new s.defaultIoWriterLevel p])

/-- `MessageToOutput` (sypl.go): a message to be printed at the specified
level, to the specified output. -/
structure MessageToOutput where
  content : String
  level : Level
  outputName : String

/-- `PrintMessagesToOutputs` (sypl.go): builds one message per tuple,
pins it to the tuple's single output name via `SetOutputsNames`, and
processes the batch. -/
def Logger.printMessagesToOutputs (s : Logger) (filterEnvVar : String)
    (mtos : List MessageToOutput) : List WriteCall × Bool :=
  s.process filterEnvVar
    (mtos.map fun mto =>
      { Message.new mto.level mto.content with outputsNames := [mto.outputName] })

/-! ## Content line-break strip/restore (interface `ILineBreaker`)

The `lineBreaker` implementation (message/linebreaker.go and
content/content.go) is not under src/; only the `ILineBreaker` interface
is ("Detects (cross-OS) and removes any newline/line-break, at the end of
the content"; "Restore known linebreaks"). The model below follows the
spec: `strip()` removes one trailing platform-agnostic line break
(`"\r\n"`, `"\n"` or `"\r"`) from the processed text, recording what was
stripped; `restore()` re-appends exactly what was stripped, exactly once;
restoring with nothing recorded is a no-op. -/

/-- Split one trailing cross-OS line break off a *reversed* char list:
returns (rest of the reversed list, the stripped line break in normal
order). -/
def stripRev (r : List Char) : List Char × List Char :=
  match r with
  | [] => ([], [])
  | a :: rest =>
    if a = '\n' then
      match rest with
      | b :: rest2 => if b = '\r' then (rest2, ['\r', '\n']) else (rest, ['\n'])
      | [] => (rest, ['\n'])
    else if a = '\r' then (rest, ['\r'])
    else (a :: rest, [])

/-- Modelled from the spec: the content state an `ILineBreaker` operates
on — original text, processed text, and the recorded stripped line break
(empty when nothing was stripped). -/
structure Content where
  original : String
  processed : List Char
  strippedLB : List Char
deriving DecidableEq

/-- Modelled from the spec: fresh content — processed starts equal to
original, nothing stripped yet. -/
def Content.new (s : String) : Content :=
  { original := s, processed := s.data, strippedLB := [] }

/-- Modelled from the spec: `Strip()` — remove one trailing cross-OS line
break from the processed text, recording what was removed. -/
def Content.strip (c : Content) : Content :=
  { c with
    processed := (stripRev c.processed.reverse).1.reverse
    strippedLB := (stripRev c.processed.reverse).2 }

/-- Modelled from the spec: `Restore()` — re-append exactly what `Strip()`
recorded (nothing recorded means no change), and clear the record. -/
def Content.restore (c : Content) : Content :=
  { c with processed := c.processed ++ c.strippedLB, strippedLB := [] }

/-! ## Content-based hash (`generateID`, message/util.go)

`generateID(ct)` returns `fmt.Sprintf("%x\n", sha1.Sum([]byte(strings.Trim(ct, "\f\t\r\n "))))`:
the lowercase-hex SHA-1 digest of the trimmed content followed by a
newline (the `\n` sits inside the format string). SHA-1 is the standard
algorithm of Go's `crypto/sha1`, embedded below over byte lists with
32-bit words as `Nat` reduced mod `2 ^ 32`. -/

/-- UTF-8 bytes of a Go string. -/
def utf8Bytes (s : String) : List Nat :=
  s.toUTF8.toList.map UInt8.toNat

/-- Rotate a 32-bit word (a `Nat` < `2 ^ 32`) left by `k`. -/
def rotl32 (k x : Nat) : Nat :=
  ((x <<< k) % 2 ^ 32) ||| (x >>> (32 - k))

/-- SHA-1 padding: append `0x80`, zero bytes until the length is 56 mod
64, then the original bit length as 8 big-endian bytes. -/
def sha1Pad (msg : List Nat) : List Nat :=
  let ml := 8 * msg.length
  let z := (120 - ((msg.length + 1) % 64)) % 64
  msg ++ [0x80] ++ List.replicate z 0 ++
    (List.range 8).map fun i => (ml >>> (8 * (7 - i))) % 256

/-- Split a byte list into 64-byte chunks. -/
def chunks64 (l : List Nat) : List (List Nat) :=
  if h : l = [] then [] else l.take 64 :: chunks64 (l.drop 64)
termination_by l.length
decreasing_by
  simp only [List.length_drop]
  exact Nat.sub_lt (List.length_pos.mpr h) (by norm_num)

/-- Big-endian 32-bit words of a chunk. -/
def bytesToWords : List Nat → List Nat
  | a :: b :: c :: d :: rest =>
      (((a * 256 + b) * 256 + c) * 256 + d) :: bytesToWords rest
  | _ => []

/-- Extend 16 words to the 80-word message schedule. -/
def sha1Extend (ws : List Nat) : List Nat :=
  (List.range 80).foldl
    (fun acc i =>
      if i < 16 then acc ++ [ws.getD i 0]
      else acc ++ [rotl32 1 ((((acc.getD (i - 3) 0) ^^^ (acc.getD (i - 8) 0)) ^^^
                              (acc.getD (i - 14) 0)) ^^^ (acc.getD (i - 16) 0))])
    []

/-- Round function and constant of SHA-1 round `i`. -/
def sha1F (i b c d : Nat) : Nat × Nat :=
  if i < 20 then ((b &&& c) ||| ((b ^^^ 0xFFFFFFFF) &&& d), 0x5A827999)
  else if i < 40 then ((b ^^^ c) ^^^ d, 0x6ED9EBA1)
  else if i < 60 then (((b &&& c) ||| (b &&& d)) ||| (c &&& d), 0x8F1BBCDC)
  else ((b ^^^ c) ^^^ d, 0xCA62C1D6)

/-- Compress one 64-byte chunk into the running hash state. -/
def sha1Chunk (h : Nat × Nat × Nat × Nat × Nat) (chunk : List Nat) :
    Nat × Nat × Nat × Nat × Nat :=
  let ws := sha1Extend (bytesToWords chunk)
  let fin := (List.range 80).foldl
    (fun (st : Nat × Nat × Nat × Nat × Nat) i =>
      let (a, b, c, d, e) := st
      let fk := sha1F i b c d
      let temp := (rotl32 5 a + fk.1 + e + fk.2 + ws.getD i 0) % 2 ^ 32
      (temp, a, rotl32 30 b, c, d))
    h
  ((h.1 + fin.1) % 2 ^ 32,
   (h.2.1 + fin.2.1) % 2 ^ 32,
   (h.2.2.1 + fin.2.2.1) % 2 ^ 32,
   (h.2.2.2.1 + fin.2.2.2.1) % 2 ^ 32,
   (h.2.2.2.2 + fin.2.2.2.2) % 2 ^ 32)

/-- `sha1.Sum`: the 20-byte SHA-1 digest of a byte list. -/
def sha1Sum (msg : List Nat) : List Nat :=
  let fin := (chunks64 (sha1Pad msg)).foldl sha1Chunk
    (0x67452301, 0xEFCDAB89, 0x98BADCFE, 0x10325476, 0xC3D2E1F0)
  [fin.1, fin.2.1, fin.2.2.1, fin.2.2.2.1, fin.2.2.2.2].foldr
    (fun h acc => ((List.range 4).map fun i => (h >>> (8 * (3 - i))) % 256) ++ acc)
    []

/-- One lowercase hex digit. -/
def hexDigit (n : Nat) : Char :=
  "0123456789abcdef".data.getD n '0'

/-- Lowercase hex of a byte list (`fmt.Sprintf("%x", ...)`). -/
def bytesToHex (bs : List Nat) : String :=
  String.mk (bs.foldr (fun b acc => hexDigit (b / 16) :: hexDigit (b % 16) :: acc) [])

/-- The cutset of `strings.Trim` in `generateID`: `"\f\t\r\n "`. -/
def generateIDCutset : List Char := ['\x0c', '\t', '\r', '\n', ' ']

/-- `generateID` (message/util.go): lowercase-hex SHA-1 of the trimmed
content, with the format string's trailing newline. -/
def generateID (ct : String) : String :=
  bytesToHex (sha1Sum (utf8Bytes (goTrim ct generateIDCutset))) ++ "\n"

/-! ## Child logger derivation with Go reference semantics (sypl.go `New` method)

In Go, `Sypl.fields` has a map type and `Sypl.outputs` a slice of
interface values: the child derivation's assignments `s.fields =
sypl.fields` and `New(name, sypl.outputs...)` copy the map *reference*
and the slice of output *instances* — they do not copy the map's
bindings or the outputs themselves. To make that aliasing observable the
embedding gives map values and output instances explicit stores addressed
by `Nat` references. `tags` is a string slice: the child copies the slice
header, and since `SetTags` only appends (and `GetTags` reads the
length-bounded view fixed at derivation), tag mutations through one
logger are not observable through the other's `GetTags`; the embedding
therefore carries tags by value. -/

def FieldsStore := List Fields

/-- Dereference a map reference (`sypl.fields` as a Go map value). -/
def storeRead (h : FieldsStore) (r : Nat) : Fields :=
  List.getD h r []

/-- In-place map assignment `m[k] = v` through reference `r` (e.g. via
the map returned by `GetFields`). -/
def storeWrite (h : FieldsStore) (r : Nat) (k v : String) : FieldsStore :=
  List.set h r (fieldsInsert (List.getD h r []) k v)

def OutputStore := List Output

/-- Dereference an output instance. -/
def outRead (h : OutputStore) (r : Nat) : Output :=
  List.getD h r { name := "", status := Status.disabled }

/-- Mutate an output instance in place (e.g. `SetStatus`). -/
def outWrite (h : OutputStore) (r : Nat) (o : Output) : OutputStore :=
  List.set h r o

/-- The `Sypl` struct under Go reference semantics: the fields map and the
output instances live in the stores. -/
structure LoggerRef where
  name : String
  defaultIoWriterLevel : Level
  fieldsRef : Nat
  outputs : List Nat
  status : Status
  tags : List String
deriving DecidableEq

/-- The child-derivation method `New(name string) *Sypl` (sypl.go):
`New(name, sypl.outputs...)` hands the child the parent's output slice
(same instances), then `s.fields = sypl.fields` assigns the parent's
fields map reference, and level, status and tags are assigned from the
parent. Net effect: every component of the struct except the name. -/
def LoggerRef.child (s : LoggerRef) (name : String) : LoggerRef :=
  { s with name := name }

/-- `SetFields` (sypl.go): replaces the logger's fields map wholesale —
the struct now holds the given map reference. -/
def LoggerRef.setFields (s : LoggerRef) (r : Nat) : LoggerRef :=
  { s with fieldsRef := r }

/-- `SetTags` (sypl.go): appends the given tags to the logger's tag
slice. -/
def LoggerRef.setTags (s : LoggerRef) (ts : List String) : LoggerRef :=
  { s with tags := s.tags ++ ts }

/-! ## Concrete fixtures used by counterexamples and witnesses -/

/-- A logger with a single enabled output named `con`. -/
def loggerC1 : Logger := Logger.new "l" [{ name := "con", status := Status.enabled }]

/-- A batch tuple pinned to the (unregistered) output name `console`. -/
def mtoC1 : MessageToOutput :=
  { content := "hi", level := Level.info, outputName := "console" }

/-- A message carrying the explicit allow-list `["con"]`. -/
def msgC1w : Message := { Message.new Level.info "hi" with outputsNames := ["con"] }

/-- A logger named `log` with one enabled output. -/
def loggerC2 : Logger := Logger.new "log" [{ name := "o", status := Status.enabled }]

/-- A plain info message with non-empty content. -/
def msgC2 : Message := Message.new Level.info "hi"

/-- A logger whose global fields are `{"env": "prod"}`. -/
def loggerC3 : Logger :=
  { Logger.new "l" [{ name := "o", status := Status.enabled }] with
    fields := some [("env", "prod")] }

/-- A message carrying fields `{"env": "staging", "req": "abc"}`. -/
def msgC3 : Message :=
  { Message.new Level.info "hi" with fields := [("env", "staging"), ("req", "abc")] }

/-- A logger whose global tags are `["g"]`. -/
def loggerC4 : Logger :=
  { Logger.new "l" [{ name := "o", status := Status.enabled }] with tags := some ["g"] }

/-- A message already carrying the tag `t`. -/
def msgC4 : Message := { Message.new Level.info "hi" with tags := ["t"] }

/-- A logger with a single enabled output. -/
def loggerC5 : Logger := Logger.new "l" [{ name := "o", status := Status.enabled }]

/-- An empty-content message flagged `SkipAndMute`. -/
def msgC5 : Message := { Message.new Level.info "" with flag := Flag.skipAndMute }

/-- A parent logger whose fields map is the store's reference 0 and whose
single output is the store's instance 0. -/
def parentC7 : LoggerRef :=
  { name := "parent"
    defaultIoWriterLevel := Level.none
    fieldsRef := 0
    outputs := [0]
    status := Status.enabled
    tags := ["g"] }

/-- A fields store with one map value, `{"env": "prod"}`, at reference 0. -/
def storeC7 : FieldsStore := [[("env", "prod")]]

/-! ## Helper lemmas -/

/-- `fieldsGet` distributes over `fieldsInsert`: the inserted key reads
back the inserted value, other keys are untouched. -/
theorem fieldsGet_insert (f : Fields) (k v k' : String) :
    fieldsGet (fieldsInsert f k v) k' = if k = k' then some v else fieldsGet f k' := by
  induction f with
  | nil => simp [fieldsInsert, fieldsGet]
  | cons p rest ih =>
    obtain ⟨k0, v0⟩ := p
    by_cases h0 : k0 = k
    · subst h0
      by_cases h1 : k0 = k' <;> simp [fieldsInsert, fieldsGet, h1]
    · have h0' : ¬ k = k0 := fun h => h0 h.symm
      by_cases h1 : k0 = k'
      · subst h1
        simp [fieldsInsert, fieldsGet, h0, h0']
      · simp [fieldsInsert, fieldsGet, h0, h1, ih]

/-- A key not among a map's keys reads back nothing. -/
theorem fieldsGet_eq_none (f : Fields) (k : String) (h : k ∉ fieldsKeys f) :
    fieldsGet f k = none := by
  induction f with
  | nil => simp [fieldsGet]
  | cons p rest ih =>
    obtain ⟨k0, v0⟩ := p
    simp only [fieldsKeys, List.map_cons, List.mem_cons] at h
    push_neg at h
    have h1 : ¬ k0 = k := fun hh => h.1 hh.symm
    simp [fieldsGet, h1, ih (by simpa [fieldsKeys] using h.2)]

/-- Lookup after `fieldsCopy src dst`: a binding of `src` wins over `dst`
(for `src` with unique keys, as every Go map has). -/
theorem fieldsGet_copy (src : Fields) (hsrc : (fieldsKeys src).Nodup) (dst : Fields)
    (k : String) :
    fieldsGet (fieldsCopy src dst) k =
      match fieldsGet src k with
      | some v => some v
      | none => fieldsGet dst k := by
  induction src generalizing dst with
  | nil => simp [fieldsCopy, fieldsGet]
  | cons p rest ih =>
    obtain ⟨k0, v0⟩ := p
    simp only [fieldsKeys, List.map_cons, List.nodup_cons] at hsrc
    have hcopy : fieldsCopy ((k0, v0) :: rest) dst = fieldsCopy rest (fieldsInsert dst k0 v0) := by
      simp [fieldsCopy]
    rw [hcopy, ih hsrc.2 (fieldsInsert dst k0 v0)]
    by_cases h0 : k0 = k
    · subst h0
      have : fieldsGet rest k0 = none :=
        fieldsGet_eq_none rest k0 (by simpa [fieldsKeys] using hsrc.1)
      simp [fieldsGet, this, fieldsGet_insert]
    · have h0' : ¬ k = k0 := fun hh => h0 hh.symm
      simp [fieldsGet, h0', fieldsGet_insert, h0]

/-- Membership in `addTags` is the union of memberships. -/
theorem mem_addTags (acc new : List String) (t : String) :
    t ∈ addTags acc new ↔ t ∈ acc ∨ t ∈ new := by
  induction new generalizing acc with
  | nil => simp [addTags]
  | cons x xs ih =>
    have hstep : addTags acc (x :: xs) =
        addTags (if x ∈ acc then acc else acc ++ [x]) xs := by
      simp [addTags]
    rw [hstep]
    by_cases hx : x ∈ acc
    · rw [if_pos hx, ih]
      constructor
      · rintro (h | h)
        · exact Or.inl h
        · exact Or.inr (List.mem_cons_of_mem _ h)
      · rintro (h | h)
        · exact Or.inl h
        · rcases List.mem_cons.mp h with h | h
          · exact Or.inl (h ▸ hx)
          · exact Or.inr h
    · rw [if_neg hx, ih]
      constructor
      · rintro (h | h)
        · rcases List.mem_append.mp h with h | h
          · exact Or.inl h
          · exact Or.inr (List.mem_cons.mpr (Or.inl (List.mem_singleton.mp h)))
        · exact Or.inr (List.mem_cons_of_mem _ h)
      · rintro (h | h)
        · exact Or.inl (List.mem_append.mpr (Or.inl h))
        · rcases List.mem_cons.mp h with h | h
          · exact Or.inl (List.mem_append.mpr (Or.inr (by simp [h])))
          · exact Or.inr h

/-- `addTags` never introduces duplicates. -/
theorem nodup_addTags (acc new : List String) (h : acc.Nodup) :
    (addTags acc new).Nodup := by
  induction new generalizing acc with
  | nil => simpa [addTags] using h
  | cons x xs ih =>
    have hstep : addTags acc (x :: xs) =
        addTags (if x ∈ acc then acc else acc ++ [x]) xs := by
      simp [addTags]
    rw [hstep]
    by_cases hx : x ∈ acc
    · exact if_pos hx ▸ ih acc h
    · refine if_neg hx ▸ ih (acc ++ [x]) ?_
      simpa [List.nodup_append] using ⟨h, hx⟩

/-- Adding tags that are all already present changes nothing. -/
theorem addTags_noop (acc new : List String) (h : ∀ t ∈ new, t ∈ acc) :
    addTags acc new = acc := by
  induction new with
  | nil => simp [addTags]
  | cons x xs ih =>
    have hstep : addTags acc (x :: xs) =
        addTags (if x ∈ acc then acc else acc ++ [x]) xs := by
      simp [addTags]
    rw [hstep, if_pos (h x (List.mem_cons_self x xs))]
    exact ih fun t ht => h t (List.mem_cons_of_mem _ ht)

/-- `addTags` keeps the existing tags in their positions and appends
after them exactly tags that are among the added ones and were not
already present. -/
theorem addTags_append (new acc : List String) :
    ∃ rest, addTags acc new = acc ++ rest ∧ ∀ t ∈ rest, t ∈ new ∧ t ∉ acc := by
  induction new generalizing acc with
  | nil => exact ⟨[], by simp [addTags], by simp⟩
  | cons x xs ih =>
    have hstep : addTags acc (x :: xs) =
        addTags (if x ∈ acc then acc else acc ++ [x]) xs := by
      simp [addTags]
    by_cases hx : x ∈ acc
    · obtain ⟨rest, h1, h2⟩ := ih acc
      refine ⟨rest, by rw [hstep, if_pos hx, h1], fun t ht => ?_⟩
      exact ⟨List.mem_cons_of_mem _ (h2 t ht).1, (h2 t ht).2⟩
    · obtain ⟨rest, h1, h2⟩ := ih (acc ++ [x])
      refine ⟨x :: rest, ?_, fun t ht => ?_⟩
      · rw [hstep, if_neg hx, h1, List.append_assoc]
        rfl
      · rcases List.mem_cons.mp ht with h | h
        · exact ⟨h ▸ List.mem_cons_self x xs, h ▸ hx⟩
        · have h2t := h2 t h
          refine ⟨List.mem_cons_of_mem _ h2t.1, fun hc => h2t.2 ?_⟩
          exact List.mem_append.mpr (Or.inl hc)

/-- The output names `processOutputs` invokes `Write` on are exactly the
enabled outputs whose name is contained (as a substring) in the
comma-joined target-name string. -/
theorem processOutputs_names (s : Logger) (m : Message) (names : String) :
    (s.processOutputs m names).map WriteCall.outputName =
      (s.outputs.filter fun o =>
        decide (o.status = Status.enabled) && goContains names o.name).map Output.name := by
  unfold Logger.processOutputs
  induction s.outputs with
  | nil => simp
  | cons o rest ih =>
    by_cases h : o.status = Status.enabled ∧ goContains names o.name
    · simp [List.filterMap_cons, List.filter_cons, h.1, h.2, ih]
    · rw [Decidable.not_and_iff_or_not] at h
      rcases h with h | h
      · simp [List.filterMap_cons, List.filter_cons, h, ih]
      · simp only [Bool.not_eq_true] at h
        simp [List.filterMap_cons, List.filter_cons, h, ih]

/-- Round trip of the reversed-list strip: the kept part re-appended with
the stripped part is the original reversed list. -/
theorem stripRev_append (r : List Char) :
    (stripRev r).2.reverse ++ (stripRev r).1 = r := by
  match r with
  | [] => rfl
  | a :: rest =>
    by_cases ha : a = '\n'
    · subst ha
      match rest with
      | [] => rfl
      | b :: rest2 =>
        by_cases hb : b = '\r'
        · subst hb
          simp [stripRev]
        · simp [stripRev, hb]
    · by_cases ha2 : a = '\r'
      · subst ha2
        simp [stripRev]
      · simp [stripRev, ha, ha2]

/-! ## The claims -/

/-- C1, counterexample to the claim as stated: the allow-list
`["console"]` names no registered output of a logger whose only (enabled)
output is named `con`, so the claim promises zero writes for the tuple —
yet the dispatcher invokes `con`'s write, because
`strings.Contains("console", "con")` holds: `con` is written although its
name does not appear among the resolved target names. -/
theorem claim_c1_counterexample :
    "console" ∉ loggerC1.getOutputsNames ∧
    "con" ∉ (["console"] : List String) ∧
    (loggerC1.printMessagesToOutputs "" [mtoC1]).1.map WriteCall.outputName = ["con"] := by
  refine ⟨by decide, by decide, by decide⟩

/-- C1, amended: for every print carrying an explicit, non-empty
output-name allow-list, the dispatcher invokes write exactly on the
enabled outputs whose name is a *substring* of the comma-joined resolved
target names (so an allow-list naming no registered output can still
produce writes when a registered name occurs inside a listed name, and
yields zero writes only when no registered enabled output's name is such
a substring). -/
theorem claim_c1 (s : Logger) (env : String) (m : Message)
    (h1 : ¬ (m.contentOriginal = "" ∧ m.flag = Flag.skipAndMute))
    (h2 : ¬ (env ≠ "" ∧ ¬ goContains env s.name))
    (h3 : m.outputsNames ≠ []) :
    ((s.dispatchMessage env m).map (fun p => p.2.map WriteCall.outputName)).getD [] =
      (s.outputs.filter fun o =>
        decide (o.status = Status.enabled) &&
          goContains (String.intercalate "," m.outputsNames) o.name).map Output.name ∧
    (s.dispatchMessage env m).isSome = true := by
  have hlen : 0 < m.outputsNames.length := List.length_pos.mpr h3
  unfold Logger.dispatchMessage
  rw [if_neg h1, if_neg h2]
  simp only [hlen, if_pos, Option.map_some', Option.getD_some, Option.isSome_some, and_true]
  rw [processOutputs_names]

/-- C1, witness: the amended theorem evaluated on a logger with one
enabled output `con` and a message allow-listing exactly `con`. -/
theorem claim_c1_witness :
    (¬ (msgC1w.contentOriginal = "" ∧ msgC1w.flag = Flag.skipAndMute) ∧
     ¬ (("" : String) ≠ "" ∧ ¬ goContains "" loggerC1.name) ∧
     msgC1w.outputsNames ≠ []) ∧
    (((loggerC1.dispatchMessage "" msgC1w).map
        (fun p => p.2.map WriteCall.outputName)).getD [] =
      (loggerC1.outputs.filter fun o =>
        decide (o.status = Status.enabled) &&
          goContains (String.intercalate "," msgC1w.outputsNames) o.name).map Output.name ∧
     (loggerC1.dispatchMessage "" msgC1w).isSome = true) :=
  ⟨⟨by decide, by decide, by decide⟩,
    claim_c1 loggerC1 "" msgC1w (by decide) (by decide) (by decide)⟩

/-- C2, counterexample to the claim as stated: the filter `mylogger` is
active and the logger's name `log` is not among its comma-separated
entries (`["mylogger"]`), so the claim requires the message to be
dropped — yet it is dispatched (and written to output `o`), because
`strings.Contains("mylogger", "log")` holds. -/
theorem claim_c2_counterexample :
    ("mylogger" : String) ≠ "" ∧
    "log" ∉ specFilterEntries "mylogger" ∧
    (loggerC2.dispatchMessage "mylogger" msgC2).isSome = true ∧
    ((loggerC2.dispatchMessage "mylogger" msgC2).map
      (fun p => p.2.map WriteCall.outputName)).getD [] = ["o"] := by
  refine ⟨by decide, by decide, by decide, by decide⟩

/-- C2, amended: for every dispatched message, if the process-wide
component filter is active (non-empty) and this logger's name is not a
*substring* of the filter value, the message is dropped and no output's
write is invoked for it. -/
theorem claim_c2 (s : Logger) (env : String) (m : Message)
    (h1 : env ≠ "") (h2 : ¬ goContains env s.name) :
    s.dispatchMessage env m = none := by
  unfold Logger.dispatchMessage
  split
  · rfl
  · simp [h1, h2]

/-- C2, witness: the amended theorem evaluated on a logger named `log`
with the active filter `x`, which does not contain `log`. -/
theorem claim_c2_witness :
    (("x" : String) ≠ "" ∧ ¬ goContains "x" loggerC2.name) ∧
    loggerC2.dispatchMessage "x" msgC2 = none :=
  ⟨⟨by decide, by decide⟩, claim_c2 loggerC2 "x" msgC2 (by decide) (by decide)⟩

/-- C3: for every logger with a non-nil global field map and every
dispatched message, the field map installed on the message reads back as
the union of the global fields and the message's fields with the
message's value winning on key collision. The merge builds its result
from a fresh empty map (`fieldsCopy g []` then `fieldsCopy m.fields _`),
never writing through the logger's stored map, which — `Logger.
dispatchMessage` being a pure function of `s` — is left unchanged. -/
theorem claim_c3 (s : Logger) (env : String) (m : Message) (g : Fields)
    (hg : s.fields = some g)
    (h1 : ¬ (m.contentOriginal = "" ∧ m.flag = Flag.skipAndMute))
    (h2 : ¬ (env ≠ "" ∧ ¬ goContains env s.name))
    (hng : (fieldsKeys g).Nodup) (hnm : (fieldsKeys m.fields).Nodup) :
    (∀ k, fieldsGet (((s.dispatchMessage env m).map (fun p => p.1.fields)).getD []) k =
      match fieldsGet m.fields k with
      | some v => some v
      | none => fieldsGet g k) ∧
    (s.dispatchMessage env m).isSome = true := by
  have hfields : ((s.dispatchMessage env m).map (fun p => p.1.fields)).getD [] =
      fieldsCopy m.fields (fieldsCopy g []) ∧ (s.dispatchMessage env m).isSome = true := by
    unfold Logger.dispatchMessage
    rw [if_neg h1, if_neg h2]
    rcases ht : s.tags with _ | gt <;>
      simp [ht, hg]
  rw [hfields.1]
  refine ⟨?_, hfields.2⟩
  intro k
  rw [fieldsGet_copy m.fields hnm (fieldsCopy g []) k]
  rcases hk : fieldsGet m.fields k with _ | v
  · simp only
    rw [fieldsGet_copy g hng [] k]
    rcases hgk : fieldsGet g k with _ | v2 <;> simp [fieldsGet]
  · simp

/-- C3, witness: the spec's own example — global `{"env": "prod"}` plus
message `{"env": "staging", "req": "abc"}` reads back `staging` at key
`env` (message wins). -/
theorem claim_c3_witness :
    (loggerC3.fields = some [("env", "prod")] ∧
     ¬ (msgC3.contentOriginal = "" ∧ msgC3.flag = Flag.skipAndMute) ∧
     ¬ (("" : String) ≠ "" ∧ ¬ goContains "" loggerC3.name) ∧
     (fieldsKeys [("env", "prod")]).Nodup ∧ (fieldsKeys msgC3.fields).Nodup) ∧
    fieldsGet (((loggerC3.dispatchMessage "" msgC3).map (fun p => p.1.fields)).getD [])
        "env" =
      match fieldsGet msgC3.fields "env" with
      | some v => some v
      | none => fieldsGet [("env", "prod")] "env" :=
  ⟨⟨rfl, by decide, by decide, by decide, by decide⟩,
    (claim_c3 loggerC3 "" msgC3 [("env", "prod")] rfl (by decide) (by decide)
      (by decide) (by decide)).1 "env"⟩

/-- C4, counterexample to the claim as stated: global tags `["g"]` merged
into a message already tagged `["t"]` yield the tag list `["t", "g"]` —
the global tag ends up *after* the message's own tag, not "appended ahead"
of it (`["g"]` is not a prefix of the merged list), because `AddTags`
appends new tags after the message's existing ones. -/
theorem claim_c4_counterexample :
    ((loggerC4.dispatchMessage "" msgC4).map (fun p => p.1.tags)).getD [] = ["t", "g"] ∧
    ¬ List.isPrefixOf ["g"] (["t", "g"] : List String) = true := by
  refine ⟨by decide, by decide⟩

/-- C4, amended: for every logger with non-nil global tags and every
dispatched message, the merge installs on the message a tag set whose
membership is exactly the union of the global and the message's tags,
where the message's pre-existing tags keep their positions and what gets
appended after them (not ahead of them) is exactly global tags that were
not already present; no tag occurs more than once when the message's
tags held no duplicate, and passing the merged message through the
global-merge again changes nothing; the logger's stored tag list is
untouched (`Logger.dispatchMessage` is a pure function of `s`, and the
merge folds into the message's list only). -/
theorem claim_c4 (s : Logger) (env : String) (m : Message) (g : List String)
    (hg : s.tags = some g)
    (h1 : ¬ (m.contentOriginal = "" ∧ m.flag = Flag.skipAndMute))
    (h2 : ¬ (env ≠ "" ∧ ¬ goContains env s.name)) :
    (∀ t, t ∈ ((s.dispatchMessage env m).map (fun p => p.1.tags)).getD [] ↔
      t ∈ m.tags ∨ t ∈ g) ∧
    (∃ rest, ((s.dispatchMessage env m).map (fun p => p.1.tags)).getD [] =
        m.tags ++ rest ∧ ∀ t ∈ rest, t ∈ g ∧ t ∉ m.tags) ∧
    (m.tags.Nodup →
      (((s.dispatchMessage env m).map (fun p => p.1.tags)).getD []).Nodup) ∧
    addTags (((s.dispatchMessage env m).map (fun p => p.1.tags)).getD [])
        (g ++ ((s.dispatchMessage env m).map (fun p => p.1.tags)).getD []) =
      ((s.dispatchMessage env m).map (fun p => p.1.tags)).getD [] ∧
    (s.dispatchMessage env m).isSome = true := by
  have htags : ((s.dispatchMessage env m).map (fun p => p.1.tags)).getD [] =
      addTags m.tags (g ++ m.tags) ∧ (s.dispatchMessage env m).isSome = true := by
    unfold Logger.dispatchMessage
    rw [if_neg h1, if_neg h2]
    rcases hf : s.fields with _ | gf <;>
      simp [hf, hg]
  rw [htags.1]
  refine ⟨?_, ?_, ?_, ?_, htags.2⟩
  · intro t
    rw [mem_addTags]
    simp [List.mem_append]
    tauto
  · obtain ⟨rest, hr1, hr2⟩ := addTags_append (g ++ m.tags) m.tags
    refine ⟨rest, hr1, fun t ht => ?_⟩
    have h3 := hr2 t ht
    rcases List.mem_append.mp h3.1 with h | h
    · exact ⟨h, h3.2⟩
    · exact absurd h h3.2
  · intro hn
    exact nodup_addTags _ _ hn
  · refine addTags_noop _ _ ?_
    intro t ht
    rcases List.mem_append.mp ht with h | h
    · rw [mem_addTags]
      right
      exact List.mem_append.mpr (Or.inl h)
    · exact h

/-- C4, witness: the amended theorem's membership part evaluated at the
global tag `g` on a logger with global tags `["g"]` and a message tagged
`["t"]`. -/
theorem claim_c4_witness :
    (loggerC4.tags = some ["g"] ∧
     ¬ (msgC4.contentOriginal = "" ∧ msgC4.flag = Flag.skipAndMute) ∧
     ¬ (("" : String) ≠ "" ∧ ¬ goContains "" loggerC4.name)) ∧
    ("g" ∈ ((loggerC4.dispatchMessage "" msgC4).map (fun p => p.1.tags)).getD [] ↔
      "g" ∈ msgC4.tags ∨ "g" ∈ (["g"] : List String)) :=
  ⟨⟨rfl, by decide, by decide⟩,
    (claim_c4 loggerC4 "" msgC4 ["g"] rfl (by decide) (by decide)).1 "g"⟩

/-- C5: every message whose original content is empty and whose flag is
`SkipAndMute` is dropped by the dispatch before any output is touched —
the per-message dispatch yields nothing, and processing a batch holding
only that message performs zero writes (the logger, an untouched argument
of the pure dispatch, is unchanged). -/
theorem claim_c5 (s : Logger) (env : String) (m : Message)
    (h1 : m.contentOriginal = "") (h2 : m.flag = Flag.skipAndMute) :
    s.dispatchMessage env m = none ∧ (s.process env [m]).1 = [] := by
  have hd : s.dispatchMessage env m = none := by
    unfold Logger.dispatchMessage
    simp [h1, h2]
  exact ⟨hd, by simp [Logger.process, hd]⟩

/-- C5, witness: the theorem evaluated on an empty-content `SkipAndMute`
message against a logger with one enabled output. -/
theorem claim_c5_witness :
    (msgC5.contentOriginal = "" ∧ msgC5.flag = Flag.skipAndMute) ∧
    loggerC5.dispatchMessage "" msgC5 = none ∧ (loggerC5.process "" [msgC5]).1 = [] :=
  ⟨⟨rfl, rfl⟩, claim_c5 loggerC5 "" msgC5 rfl rfl⟩

/-- C6: a batch dispatch signals process termination (modelling
`os.Exit(1)`, invoked only after `g.Wait()` has joined all per-message,
per-output work) exactly when some non-dropped message of the batch is at
the `Fatal` level; with no fatal message the dispatch returns normally.
The write list produced alongside the exit signal is always the complete
per-message work of the whole batch, fatal messages included. -/
theorem claim_c6 (s : Logger) (env : String) (msgs : List Message) :
    ((s.process env msgs).2 = true ↔
      ∃ m ∈ msgs, (s.dispatchMessage env m).isSome = true ∧ m.level = Level.fatal) ∧
    (s.process env msgs).1 =
      msgs.foldr
        (fun m acc => (((s.dispatchMessage env m).map Prod.snd).getD []) ++ acc) [] := by
  refine ⟨?_, rfl⟩
  unfold Logger.process
  simp [List.any_eq_true, Bool.and_eq_true, decide_eq_true_iff]

/-- C7, counterexample to the claim as stated: deriving a child and then
mutating the parent's global field map in place (`GetFields()["req"] =
"abc"` through the shared map reference) *is* observable through the
child — the child's field view changes and coincides with the parent's,
because the Go child derivation assigns the parent's map reference, not a
snapshot copy of its bindings. -/
theorem claim_c7_counterexample :
    storeRead (storeWrite storeC7 parentC7.fieldsRef "req" "abc")
        (parentC7.child "child").fieldsRef ≠
      storeRead storeC7 (parentC7.child "child").fieldsRef ∧
    storeRead (storeWrite storeC7 parentC7.fieldsRef "req" "abc")
        (parentC7.child "child").fieldsRef =
      storeRead (storeWrite storeC7 parentC7.fieldsRef "req" "abc") parentC7.fieldsRef := by
  refine ⟨by decide, by decide⟩

/-- C7, amended: the child logger shares the parent's output instances
(mutating an output instance is observable through both) *and* shares the
parent's global-fields map reference, so in-place field-map mutations
through either logger are observable through the other; only the name is
independently stored, while the default io-writer level, status and the
tag list view are copied by value at derivation — so replacing a
logger's fields map wholesale (`SetFields`) or appending to its tags
(`SetTags`) afterwards produces a new parent state that leaves the
already-derived child's snapshot untouched. -/
theorem claim_c7 (s : LoggerRef) (n : String) :
    (s.child n).name = n ∧
    (s.child n).outputs = s.outputs ∧
    (s.child n).fieldsRef = s.fieldsRef ∧
    (s.child n).tags = s.tags ∧
    (s.child n).status = s.status ∧
    (s.child n).defaultIoWriterLevel = s.defaultIoWriterLevel ∧
    (∀ h : FieldsStore, ∀ k v : String,
      storeRead (storeWrite h s.fieldsRef k v) (s.child n).fieldsRef =
        storeRead (storeWrite h s.fieldsRef k v) s.fieldsRef) ∧
    (∀ oh : OutputStore, ∀ r : Nat, ∀ o : Output,
      (s.child n).outputs.map (outRead (outWrite oh r o)) =
        s.outputs.map (outRead (outWrite oh r o))) ∧
    (∀ r : Nat, (s.setFields r).fieldsRef = r ∧ (s.child n).fieldsRef = s.fieldsRef) ∧
    (∀ ts : List String, (s.setTags ts).tags = s.tags ++ ts ∧ (s.child n).tags = s.tags) := by
  refine ⟨rfl, rfl, rfl, rfl, rfl, rfl, fun h k v => rfl, fun oh r o => rfl,
    fun r => ⟨rfl, rfl⟩, fun ts => ⟨rfl, rfl⟩⟩

/-- C8: the content-based hash is a pure function of the trimmed content —
any two content strings equal after trimming the surrounding cutset
characters (space, form feed, tab, carriage return, newline) generate
identical content-based hash IDs. -/
theorem claim_c8 (c1 c2 : String)
    (h : goTrim c1 generateIDCutset = goTrim c2 generateIDCutset) :
    generateID c1 = generateID c2 := by
  unfold generateID
  rw [h]

/-- C8, witness: `" test"` and `"test\n"` trim to the same string and
hash identically. -/
theorem claim_c8_witness :
    goTrim " test" generateIDCutset = goTrim "test\n" generateIDCutset ∧
    generateID " test" = generateID "test\n" :=
  ⟨by decide, claim_c8 " test" "test\n" (by decide)⟩

/-- C9: stripping the processed text and then restoring it yields exactly
the pre-strip processed text, and restoring a content on which nothing
was ever stripped is a no-op (and, the operations being total, not an
error). -/
theorem claim_c9 (c : Content) :
    (c.strip.restore).processed = c.processed ∧
    ∀ s : String, (Content.new s).restore = Content.new s := by
  constructor
  · have h := congrArg List.reverse (stripRev_append c.processed.reverse)
    simp only [List.reverse_append, List.reverse_reverse] at h
    simpa [Content.strip, Content.restore] using h
  · intro s
    simp [Content.new, Content.restore]

/-- C10: the logger's `io.Writer` implementation returns `(0, nil)` for
every byte slice, whatever the dispatch outcome of the message it
creates. -/
theorem claim_c10 (s : Logger) (env : String) (p : String) :
    (s.write env p).1 = (0, none) := rfl

end Sypl
